import Mathlib

/-!
Shallow embedding of the FAIR scenario-construction pipeline
(interpolate_emissions.py, create_counterfactual_interpolated.py,
run_fair_comparison.py, run_fair_comparison_proper.py).

Real values are modelled by `ℚ`; a floating-point NaN (pandas missing
cell, or an unfilled engine array slot) is modelled by `none : Option ℚ`.
-/

namespace Fair

/-- A row of the wide emissions table: metadata columns plus the year
columns, in file order.  A `none` cell models a missing/NaN value
(`pd.notna` fails). -/
structure SparseRow where
  scenario : String
  varName : String
  unit : String
  cells : List (Int × Option ℚ)
  deriving Repr, DecidableEq

/-- `np.interp(x, xp, fp)` on the (sorted) sample points `pts`:
clamp to the first value left of the range, to the last value right of
the range, and interpolate linearly on the segment containing `x`.
(NumPy returns `fp[0]` for empty input paths never reached here; the
`[]` case is given the junk value 0.) -/
def np_interp : List (ℚ × ℚ) → ℚ → ℚ
  | [], _ => 0
  | [(_, v)], _ => v
  | (x1, v1) :: (x2, v2) :: rest, x =>
    if x ≤ x1 then v1
    else if x ≤ x2 then v1 + (v2 - v1) * (x - x1) / (x2 - x1)
    else np_interp ((x2, v2) :: rest) x

/-- The `(year, value)` pairs of a row whose cell is present
(`pd.notna`), year cast to `ℚ`; mirrors the `available_years` /
`available_values` collection loop of `interpolate_emissions`. -/
def available_points (row : SparseRow) : List (ℚ × ℚ) :=
  row.cells.filterMap (fun p => p.2.map (fun v => ((p.1 : ℚ), v)))

/-- `default_value = available_values[0] if available_values else 0`:
the constant used when fewer than two points are known. -/
def default_value (pts : List (ℚ × ℚ)) : ℚ :=
  match pts with
  | [] => 0
  | p :: _ => p.2

/-- `full_year_range = list(range(1750, 2024))`. -/
def full_year_range : List Int :=
  (List.range 274).map (fun i : Nat => (1750 : Int) + (i : Int))

/-- One row of `interpolate_emissions`: if fewer than 2 known points,
fill the whole horizon with `default_value` and emit the sparse-data
warning (the `Bool` component); otherwise evaluate `np.interp` at every
horizon year. -/
def interpolate_row (horizon : List Int) (row : SparseRow) :
    List (Int × ℚ) × Bool :=
  let pts := available_points row
  if pts.length < 2 then
    (horizon.map (fun y => (y, default_value pts)), true)
  else
    (horizon.map (fun y => (y, np_interp pts (y : ℚ))), false)

/-! Embedding of create_counterfactual_interpolated.py. -/

/-- One row of the reference workbook after `pd.to_numeric(..., coerce)`:
column Z (year), AA (actual CO2, GtCO2/yr), AC (counterfactual CO2,
GtCO2/yr); `none` models NaN. -/
structure RefRow where
  year : Option ℚ
  actual : Option ℚ
  counterfactual : Option ℚ
  deriving Repr, DecidableEq

/-- `Adjustment_Mt = (Counterfactual_CO2_Gt - Actual_CO2_Gt) * 1000`;
NaN (`none`) when either operand is NaN. -/
def adjustment_Mt (r : RefRow) : Option ℚ :=
  match r.actual, r.counterfactual with
  | some a, some c => some ((c - a) * 1000)
  | _, _ => none

/-- Python `int()` applied to a float: truncation toward zero. -/
def truncQ (q : ℚ) : Int :=
  if 0 ≤ q then ⌊q⌋ else ⌈q⌉

/-- The filtered `adjustment_data` rows: keep rows whose year lies in
[1976, 2023] and whose `Adjustment_Mt` is not NaN, recording
`(int(row.Year), row.Adjustment_Mt)` in workbook order. -/
def adjustment_data (xs : List RefRow) : List (Int × ℚ) :=
  xs.filterMap (fun r =>
    match r.year, adjustment_Mt r with
    | some y, some a =>
      if 1976 ≤ y ∧ y ≤ 2023 then some (truncQ y, a) else none
    | _, _ => none)

/-- A row of the interpolated emissions table; after interpolation every
cell is a number, so cells are a total map from year. -/
structure EmisRow where
  scenario : String
  varName : String
  unit : String
  cells : Int → ℚ

/-- The interpolated emissions table: the year columns actually present
in the file, and the rows. -/
structure EmisTable where
  cols : List Int
  rows : List EmisRow

/-- One iteration of the adjustment loop: if the year's column exists,
add the adjustment to that cell of every `Emissions|CO2` row; otherwise
warn and leave the table unchanged. -/
def apply_adjustment (t : EmisTable) (ya : Int × ℚ) : EmisTable :=
  if ya.1 ∈ t.cols then
    { t with rows := t.rows.map (fun r =>
        if r.varName = "Emissions|CO2" then
          { r with cells := fun y => if y = ya.1 then r.cells y + ya.2 else r.cells y }
        else r) }
  else t

/-- Total adjustment received by the cell of year `y` over the whole
loop: the sum of the adjustments of the filtered rows whose (truncated)
year equals `y` and whose column exists in the table. -/
def adj_total (adjs : List (Int × ℚ)) (cols : List Int) (y : Int) : ℚ :=
  ((adjs.filter (fun p => p.1 == y && decide (p.1 ∈ cols))).map Prod.snd).sum

/-- `create_counterfactual_interpolated`: abort with `ValueError` when no
`Emissions|CO2` row exists, otherwise apply every filtered adjustment in
order. -/
def create_counterfactual_interpolated (xs : List RefRow) (t : EmisTable) :
    Except String EmisTable :=
  if (t.rows.filter (fun r => r.varName == "Emissions|CO2")).length = 0 then
    .error "Could not find Emissions|CO2 in the interpolated emissions file"
  else
    .ok ((adjustment_data xs).foldl apply_adjustment t)

/-! Embedding of the timegrid mapping and emissions filling of
run_fair_comparison.py (lines 141-163). -/

/-- `np.where(timepoints == t)[0]`: index of the first exact match. -/
def findEq : List ℚ → ℚ → Option Nat
  | [], _ => none
  | x :: xs, t => if x = t then some 0 else (findEq xs t).map (· + 1)

/-- One iteration of the fill loop: compute the target timepoint
`year + 0.5`, look for an exact match in the engine's timepoint vector,
write the value there when found (and count it), and skip the year
otherwise. -/
def fill_step (tps : List ℚ) (st : List (Option ℚ) × Nat) (p : Int × ℚ) :
    List (Option ℚ) × Nat :=
  match findEq tps ((p.1 : ℚ) + 1/2) with
  | some i => (st.1.set i (some p.2), st.2 + 1)
  | none => st

/-- The fill loop for one species over all `(year, value)` pairs.
Engine array slots are `Option ℚ` (`none` = still NaN from
allocation). -/
def fill_emissions (tps : List ℚ) (emis : List (Option ℚ))
    (yvs : List (Int × ℚ)) : List (Option ℚ) × Nat :=
  yvs.foldl (fill_step tps) (emis, 0)

/-- `np.nan_to_num(species_values, nan=0.0)` zipped back with the year
columns: a missing (NaN) cell becomes 0.0. -/
def nan_to_num_series (cells : List (Int × Option ℚ)) : List (Int × ℚ) :=
  cells.map (fun p => (p.1, p.2.getD 0))

/-- Lines 145-163 of run_fair_comparison.py for one species row:
NaN-to-zero then the exact-match fill loop. -/
def process_species (tps : List ℚ) (emis : List (Option ℚ))
    (cells : List (Int × Option ℚ)) : List (Option ℚ) × Nat :=
  fill_emissions tps emis (nan_to_num_series cells)

/-- The CSV-variable → FAIR-species mapping of run_fair_comparison.py. -/
def variable_mapping : List (String × String) :=
  [("Emissions|CO2", "CO2"), ("Emissions|CH4", "CH4"),
   ("Emissions|N2O", "N2O"), ("Emissions|Sulfur", "Sulfur"),
   ("Emissions|BC", "BC"), ("Emissions|OC", "OC")]

/-- The species loop of run_fair_comparison.py (lines 130-163) over an
arbitrary variable mapping: for each mapped variable, look up its row;
when absent, record a warning and continue with the next variable; when
present, fill that species' slice of the emissions array.  Returns the
per-species fill results and the warnings, in loop order. -/
def species_step (tps : List ℚ) (rows : List SparseRow)
    (emisInit : List (Option ℚ))
    (acc : List (String × (List (Option ℚ) × Nat)) × List String)
    (p : String × String) :
    List (String × (List (Option ℚ) × Nat)) × List String :=
  match rows.find? (fun r => r.varName == p.1) with
  | none => (acc.1, acc.2 ++ [p.1])
  | some r => (acc.1 ++ [(p.2, process_species tps emisInit r.cells)], acc.2)

def fill_species_loop_over (mapping : List (String × String)) (tps : List ℚ)
    (rows : List SparseRow) (emisInit : List (Option ℚ)) :
    List (String × (List (Option ℚ) × Nat)) × List String :=
  mapping.foldl (species_step tps rows emisInit) ([], [])

/-- The species loop instantiated at the source's `variable_mapping`. -/
def fill_species_loop (tps : List ℚ) (rows : List SparseRow)
    (emisInit : List (Option ℚ)) :
    List (String × (List (Option ℚ) × Nat)) × List String :=
  fill_species_loop_over variable_mapping tps rows emisInit

/-! Embedding of the pre-run state-initialization policy of
run_fair_comparison_proper.py (lines 324-335 and 357). -/

/-- The engine state arrays touched by the pre-run NaN policy; `none`
models a NaN slot. -/
structure ModelState where
  temperature : List (Option ℚ)
  forcing : List (Option ℚ)
  cumulative_emissions : List (Option ℚ)
  airborne_emissions : List (Option ℚ)
  deriving Repr, DecidableEq

/-- `np.isnan(arr).any()`. -/
def hasNaN (xs : List (Option ℚ)) : Bool :=
  xs.any (fun v => v.isNone)

/-- Lines 324-335: if any NaN remains in the temperature array, set
every slot of temperature, forcing, cumulative and airborne emissions to
exactly 0.0; otherwise leave the state as it is. -/
def fix_nan_state (s : ModelState) : ModelState :=
  if hasNaN s.temperature then
    { temperature := s.temperature.map (fun _ => some 0),
      forcing := s.forcing.map (fun _ => some 0),
      cumulative_emissions := s.cumulative_emissions.map (fun _ => some 0),
      airborne_emissions := s.airborne_emissions.map (fun _ => some 0) }
  else s

/-- The pre-run step as a fallible pipeline stage: the source raises no
exception here — it always hands the (possibly repaired) state to
`f.run()` at line 357. -/
def pre_run_check (s : ModelState) : Except String ModelState :=
  .ok (fix_nan_state s)

/-! Embedding of compare_scenarios (run_fair_comparison.py lines
254-270; create_comparison of run_fair_comparison_proper.py is
identical). -/

/-- The per-quantity series of one driven run. -/
structure RunResult where
  temperature : List ℚ
  co2_concentration : List ℚ
  emissions : List ℚ
  deriving Repr, DecidableEq

/-- `arr[-1]` (junk 0 on the empty array, on which NumPy raises). -/
def lastD (l : List ℚ) : ℚ := l.getLastD 0

/-- `np.max` (junk 0 on the empty array, on which NumPy raises). -/
def npMax : List ℚ → ℚ
  | [] => 0
  | a :: as => as.foldl max a

/-- The comparison record built by compare_scenarios. -/
structure Comparison where
  temp_diff_2023 : ℚ
  co2_diff_2023 : ℚ
  max_temp_diff : ℚ
  max_co2_diff : ℚ
  cumulative_emissions_diff : ℚ
  temp_diff_series : List ℚ
  co2_diff_series : List ℚ
  emissions_diff_series : List ℚ
  deriving Repr, DecidableEq

/-- compare_scenarios: elementwise differences counterfactual − baseline
and their scalar summaries. -/
def compare_scenarios (baseline counterfactual : RunResult) : Comparison :=
  let temp_diff := List.zipWith (· - ·) counterfactual.temperature baseline.temperature
  let co2_diff := List.zipWith (· - ·) counterfactual.co2_concentration baseline.co2_concentration
  let emissions_diff := List.zipWith (· - ·) counterfactual.emissions baseline.emissions
  { temp_diff_2023 := lastD temp_diff
    co2_diff_2023 := lastD co2_diff
    max_temp_diff := npMax temp_diff
    max_co2_diff := npMax co2_diff
    cumulative_emissions_diff := emissions_diff.sum
    temp_diff_series := temp_diff
    co2_diff_series := co2_diff
    emissions_diff_series := emissions_diff }

/-! Lemmas about `np_interp`. -/

theorem np_interp_head_le (x1 v1 : ℚ) (l : List (ℚ × ℚ)) (x : ℚ)
    (hx : x ≤ x1) : np_interp ((x1, v1) :: l) x = v1 := by
  cases l with
  | nil => rfl
  | cons p l2 =>
    obtain ⟨x2, v2⟩ := p
    simp [np_interp, hx]

theorem np_interp_skip (x1 v1 x2 v2 : ℚ) (rest : List (ℚ × ℚ)) (x : ℚ)
    (h12 : x1 < x2) (h2x : x2 < x) :
    np_interp ((x1, v1) :: (x2, v2) :: rest) x = np_interp ((x2, v2) :: rest) x := by
  have h1 : ¬ x ≤ x1 := not_le.mpr (lt_trans h12 h2x)
  have h2 : ¬ x ≤ x2 := not_le.mpr h2x
  simp [np_interp, h1, h2]

theorem np_interp_segment (x1 v1 x2 v2 : ℚ) (rest : List (ℚ × ℚ)) (x : ℚ)
    (h1 : x1 < x) (h2 : x ≤ x2) :
    np_interp ((x1, v1) :: (x2, v2) :: rest) x
      = v1 + (v2 - v1) * (x - x1) / (x2 - x1) := by
  have h1' : ¬ x ≤ x1 := not_le.mpr h1
  simp [np_interp, h1', h2]

theorem np_interp_known (pts : List (ℚ × ℚ))
    (hs : (pts.map Prod.fst).Pairwise (· < ·)) :
    ∀ x v, (x, v) ∈ pts → np_interp pts x = v := by
  induction pts with
  | nil => intro x v h; simp at h
  | cons hd tl ih =>
    obtain ⟨x1, v1⟩ := hd
    intro x v hmem
    simp only [List.map_cons, List.pairwise_cons] at hs
    obtain ⟨h1, hs'⟩ := hs
    rcases List.mem_cons.mp hmem with heq | htl
    · simp only [Prod.mk.injEq] at heq
      obtain ⟨rfl, rfl⟩ := heq
      exact np_interp_head_le x v tl x le_rfl
    · cases tl with
      | nil => simp at htl
      | cons hd2 tl2 =>
        obtain ⟨x2, v2⟩ := hd2
        have hx1x2 : x1 < x2 := h1 x2 (by simp)
        rcases List.mem_cons.mp htl with heq2 | htl2
        · simp only [Prod.mk.injEq] at heq2
          obtain ⟨rfl, rfl⟩ := heq2
          rw [np_interp_segment x1 v1 x v tl2 x hx1x2 le_rfl]
          have hne : x - x1 ≠ 0 := sub_ne_zero.mpr hx1x2.ne'
          field_simp
        · have hx2x : x2 < x := by
            simp only [List.map_cons, List.pairwise_cons] at hs'
            exact hs'.1 x (List.mem_map.mpr ⟨(x, v), htl2, rfl⟩)
          rw [np_interp_skip x1 v1 x2 v2 tl2 x hx1x2 hx2x]
          exact ih hs' x v htl

theorem np_interp_midpoint (l1 : List (ℚ × ℚ)) :
    ∀ (x1 v1 x2 v2 : ℚ) (l2 : List (ℚ × ℚ)),
      (((l1 ++ (x1, v1) :: (x2, v2) :: l2).map Prod.fst).Pairwise (· < ·)) →
      np_interp (l1 ++ (x1, v1) :: (x2, v2) :: l2) ((x1 + x2) / 2)
        = (v1 + v2) / 2 := by
  induction l1 with
  | nil =>
    intro x1 v1 x2 v2 l2 hs
    simp only [List.nil_append, List.map_cons, List.pairwise_cons] at hs ⊢
    have h12 : x1 < x2 := hs.1 x2 (by simp)
    have hm1 : x1 < (x1 + x2) / 2 := by linarith
    have hm2 : (x1 + x2) / 2 ≤ x2 := by linarith
    rw [np_interp_segment x1 v1 x2 v2 l2 _ hm1 hm2]
    have hne : x2 - x1 ≠ 0 := sub_ne_zero.mpr h12.ne'
    field_simp
    ring
  | cons hd l1' ih =>
    intro x1 v1 x2 v2 l2 hs
    obtain ⟨a, b⟩ := hd
    simp only [List.cons_append, List.map_cons, List.pairwise_cons] at hs
    obtain ⟨ha, hs'⟩ := hs
    have h12 : x1 < x2 := by
      have hp := (List.pairwise_append.mp (by
        simpa only [List.map_append, List.map_cons] using hs')).2.1
      exact (List.pairwise_cons.mp hp).1 x2 (by simp)
    cases l1' with
    | nil =>
      have hax1 : a < x1 := ha x1 (by simp)
      have hm : x1 < (x1 + x2) / 2 := by linarith
      simp only [List.cons_append, List.nil_append]
      rw [np_interp_skip a b x1 v1 ((x2, v2) :: l2) _ hax1 hm]
      exact ih x1 v1 x2 v2 l2 (by simpa using hs')
    | cons hd2 l1'' =>
      obtain ⟨c, d⟩ := hd2
      have hac : a < c := ha c (by simp)
      have hcx1 : c < x1 := by
        have hs'' := hs'
        simp only [List.cons_append, List.map_cons, List.pairwise_cons] at hs''
        exact hs''.1 x1 (by
          refine List.mem_map.mpr ⟨(x1, v1), ?_, rfl⟩
          exact List.mem_append_right _ (by simp))
      have hcm : c < (x1 + x2) / 2 := by linarith
      simp only [List.cons_append]
      rw [np_interp_skip a b c d (l1'' ++ (x1, v1) :: (x2, v2) :: l2) _ hac hcm]
      exact ih x1 v1 x2 v2 l2 (by simpa using hs')

theorem getLast?_mem_list {α : Type} {l : List α} {a : α}
    (h : l.getLast? = some a) : a ∈ l := by
  have hmem : a ∈ l.getLast? := by rw [h]; rfl
  obtain ⟨hne, heq⟩ := List.mem_getLast?_eq_getLast hmem
  exact heq ▸ List.getLast_mem hne

theorem np_interp_after_last (pts : List (ℚ × ℚ))
    (hs : (pts.map Prod.fst).Pairwise (· < ·)) :
    ∀ xl vl, pts.getLast? = some (xl, vl) →
      ∀ x, xl ≤ x → np_interp pts x = vl := by
  induction pts with
  | nil => intro xl vl h; simp at h
  | cons hd tl ih =>
    obtain ⟨x1, v1⟩ := hd
    intro xl vl hlast x hx
    cases tl with
    | nil =>
      simp only [List.getLast?_singleton, Option.some.injEq, Prod.mk.injEq] at hlast
      obtain ⟨rfl, rfl⟩ := hlast
      rfl
    | cons hd2 tl2 =>
      obtain ⟨x2, v2⟩ := hd2
      rw [List.getLast?_cons_cons] at hlast
      simp only [List.map_cons, List.pairwise_cons] at hs
      obtain ⟨h1, h2, hs2⟩ := hs
      have hpair_tl : (((x2, v2) :: tl2).map Prod.fst).Pairwise (· < ·) := by
        simp only [List.map_cons, List.pairwise_cons]
        exact ⟨h2, hs2⟩
      have hx1x2 : x1 < x2 := h1 x2 (by simp)
      have hx2xl : x2 ≤ xl := by
        have hmem : (xl, vl) ∈ (x2, v2) :: tl2 := getLast?_mem_list hlast
        rcases List.mem_cons.mp hmem with heq | htl2
        · exact le_of_eq (congrArg Prod.fst heq).symm
        · exact le_of_lt (h2 xl (List.mem_map.mpr ⟨(xl, vl), htl2, rfl⟩))
      by_cases hx2x : x2 < x
      · rw [np_interp_skip x1 v1 x2 v2 tl2 x hx1x2 hx2x]
        exact ih hpair_tl xl vl hlast x hx
      · have hxx2 : x ≤ x2 := le_of_not_lt hx2x
        have hxeq : x = x2 := le_antisymm hxx2 (le_trans hx2xl hx)
        cases tl2 with
        | nil =>
          simp only [List.getLast?_singleton, Option.some.injEq, Prod.mk.injEq] at hlast
          obtain ⟨h3, h4⟩ := hlast
          rw [np_interp_segment x1 v1 x2 v2 [] x (by linarith) hxx2]
          have hne : x2 - x1 ≠ 0 := sub_ne_zero.mpr hx1x2.ne'
          rw [hxeq, ← h4]
          field_simp
        | cons hd3 tl3 =>
          exfalso
          rw [List.getLast?_cons_cons] at hlast
          have hmem3 : (xl, vl) ∈ hd3 :: tl3 := getLast?_mem_list hlast
          have hlt : x2 < xl := h2 xl (List.mem_map.mpr ⟨(xl, vl), hmem3, rfl⟩)
          have : x2 < x2 := lt_of_lt_of_le hlt (le_trans hx (le_of_eq hxeq))
          exact lt_irrefl x2 this

/-- C3: with at least 2 known points (sorted strictly by year), the
interpolated dense series evaluates `np.interp` at every horizon year;
`np.interp` returns exactly the known value at each known year, the
arithmetic mean of two consecutive known values at their midpoint, and
the nearest boundary value unchanged outside the known range. -/
theorem spec_C3 (row : SparseRow) (horizon : List Int)
    (hs : ((available_points row).map Prod.fst).Pairwise (· < ·))
    (h2 : 2 ≤ (available_points row).length) :
    interpolate_row horizon row
      = (horizon.map (fun y : Int => (y, np_interp (available_points row) (y : ℚ))), false) ∧
    (∀ x v, (x, v) ∈ available_points row → np_interp (available_points row) x = v) ∧
    (∀ l1 (x1 v1 x2 v2 : ℚ) l2,
      available_points row = l1 ++ (x1, v1) :: (x2, v2) :: l2 →
      np_interp (available_points row) ((x1 + x2) / 2) = (v1 + v2) / 2) ∧
    (∀ x1 v1, (available_points row).head? = some (x1, v1) →
      ∀ x, x ≤ x1 → np_interp (available_points row) x = v1) ∧
    (∀ xl vl, (available_points row).getLast? = some (xl, vl) →
      ∀ x, xl ≤ x → np_interp (available_points row) x = vl) := by
  refine ⟨?_, np_interp_known _ hs, ?_, ?_, np_interp_after_last _ hs⟩
  · unfold interpolate_row
    rw [if_neg (not_lt.mpr h2)]
  · intro l1 x1 v1 x2 v2 l2 heq
    rw [heq]
    exact np_interp_midpoint l1 x1 v1 x2 v2 l2 (heq ▸ hs)
  · intro x1 v1 hhead x hx
    cases hpts : available_points row with
    | nil => rw [hpts] at hhead; simp at hhead
    | cons p rest =>
      rw [hpts] at hhead
      simp only [List.head?_cons, Option.some.injEq] at hhead
      subst hhead
      exact np_interp_head_le x1 v1 rest x hx

theorem spec_C3_witness :
    ((((available_points ⟨"s", "v", "u", [(1850, some 0), (2000, some 100)]⟩).map
        Prod.fst).Pairwise (· < ·)) ∧
      2 ≤ (available_points ⟨"s", "v", "u", [(1850, some 0), (2000, some 100)]⟩).length) ∧
    np_interp (available_points ⟨"s", "v", "u", [(1850, some 0), (2000, some 100)]⟩)
        (((1850 : ℚ) + 2000) / 2) = ((0 : ℚ) + 100) / 2 := by
  have hs : ((available_points ⟨"s", "v", "u", [(1850, some 0), (2000, some 100)]⟩).map
      Prod.fst).Pairwise (· < ·) := by decide
  have h2 : 2 ≤ (available_points ⟨"s", "v", "u", [(1850, some 0), (2000, some 100)]⟩).length := by
    decide
  exact ⟨⟨hs, h2⟩,
    (spec_C3 _ [] hs h2).2.2.1 [] 1850 0 2000 100 [] (by decide)⟩

/-- C8: with fewer than 2 known points, the interpolator fills the whole
horizon with the single available value (0 when there is none), emits
the sparse-data warning, and returns normally. -/
theorem spec_C8 (row : SparseRow) (horizon : List Int)
    (h : (available_points row).length < 2) :
    interpolate_row horizon row
      = (horizon.map (fun y => (y, default_value (available_points row))), true) ∧
    (∀ y v, (y, v) ∈ (interpolate_row horizon row).1 →
      v = default_value (available_points row)) ∧
    (available_points row = [] → default_value (available_points row) = 0) ∧
    (∀ p l, available_points row = p :: l →
      default_value (available_points row) = p.2) := by
  have hlink : interpolate_row horizon row
      = (horizon.map (fun y => (y, default_value (available_points row))), true) := by
    unfold interpolate_row
    rw [if_pos h]
  refine ⟨hlink, ?_, ?_, ?_⟩
  · intro y v hmem
    rw [hlink] at hmem
    simp only [List.mem_map] at hmem
    obtain ⟨a, _, heq⟩ := hmem
    exact ((Prod.mk.injEq _ _ _ _).mp heq).2.symm
  · intro he
    rw [he]
    rfl
  · intro p l he
    rw [he]
    rfl

theorem spec_C8_witness :
    (available_points ⟨"s", "v", "u", [(1900, some 5)]⟩).length < 2 ∧
    interpolate_row [1899, 1900] ⟨"s", "v", "u", [(1900, some 5)]⟩
      = ([1899, 1900].map (fun y =>
          (y, default_value (available_points ⟨"s", "v", "u", [(1900, some 5)]⟩))), true) :=
  ⟨by decide, (spec_C8 ⟨"s", "v", "u", [(1900, some 5)]⟩ [1899, 1900] (by decide)).1⟩

/-- C9: the interpolator output covers exactly one value per integer
year of the horizon [1750, 2023], with no gaps, so its length equals the
horizon length (274). -/
theorem map_fst_pairing {α β : Type} (l : List α) (f : α → β) :
    (l.map (fun y => (y, f y))).map Prod.fst = l := by
  induction l with
  | nil => rfl
  | cons a t ih => simp [ih]

theorem interpolate_row_years (horizon : List Int) (row : SparseRow) :
    ((interpolate_row horizon row).1).map Prod.fst = horizon := by
  unfold interpolate_row
  by_cases hc : (available_points row).length < 2
  · rw [if_pos hc]
    exact map_fst_pairing horizon _
  · rw [if_neg hc]
    exact map_fst_pairing horizon _

theorem spec_C9 (row : SparseRow) :
    ((interpolate_row full_year_range row).1).map Prod.fst = full_year_range ∧
    ((interpolate_row full_year_range row).1).length = full_year_range.length ∧
    full_year_range.length = 274 ∧
    (∀ y : Int, y ∈ full_year_range ↔ 1750 ≤ y ∧ y ≤ 2023) := by
  refine ⟨interpolate_row_years _ _, ?_,
    by simp only [full_year_range, List.length_map, List.length_range], ?_⟩
  · have h := congrArg List.length (interpolate_row_years full_year_range row)
    rw [List.length_map] at h
    exact h
  · intro y
    simp only [full_year_range]
    constructor
    · intro hy
      obtain ⟨i, hi, hy'⟩ := List.mem_map.mp hy
      have hlt : i < 274 := List.mem_range.mp hi
      omega
    · intro hy
      refine List.mem_map.mpr ⟨(y - 1750).toNat, List.mem_range.mpr ?_, ?_⟩
      · omega
      · omega

/-! Lemmas about the counterfactual adjustment loop. -/

theorem adj_total_nil (cols : List Int) (y : Int) : adj_total [] cols y = 0 := by
  simp [adj_total]

theorem adj_total_cons (a : Int × ℚ) (as : List (Int × ℚ)) (cols : List Int) (y : Int) :
    adj_total (a :: as) cols y
      = (if a.1 = y ∧ a.1 ∈ cols then a.2 else 0) + adj_total as cols y := by
  unfold adj_total
  rw [List.filter_cons]
  by_cases hc : a.1 = y ∧ a.1 ∈ cols
  · have hb : (a.1 == y && decide (a.1 ∈ cols)) = true := by
      simp only [Bool.and_eq_true, beq_iff_eq, decide_eq_true_eq]
      exact hc
    rw [hb, if_pos rfl, List.map_cons, List.sum_cons, if_pos hc]
  · have hb : (a.1 == y && decide (a.1 ∈ cols)) = false := by
      rcases not_and_or.mp hc with h | h
      · simp [h]
      · simp [h]
    rw [hb, if_neg Bool.false_ne_true, if_neg hc, zero_add]

theorem apply_adjustment_cols (t : EmisTable) (ya : Int × ℚ) :
    (apply_adjustment t ya).cols = t.cols := by
  unfold apply_adjustment
  split <;> rfl

theorem foldl_apply_adjustment (adjs : List (Int × ℚ)) (t : EmisTable) :
    (adjs.foldl apply_adjustment t).cols = t.cols ∧
    (adjs.foldl apply_adjustment t).rows = t.rows.map (fun r =>
      if r.varName = "Emissions|CO2" then
        { r with cells := fun y => r.cells y + adj_total adjs t.cols y }
      else r) := by
  induction adjs generalizing t with
  | nil =>
    refine ⟨rfl, ?_⟩
    have h : (fun r : EmisRow =>
        if r.varName = "Emissions|CO2" then
          { r with cells := fun y => r.cells y + adj_total [] t.cols y }
        else r) = fun r => r := by
      funext r
      by_cases hr : r.varName = "Emissions|CO2"
      · rw [if_pos hr]
        have hc : (fun y => r.cells y + adj_total [] t.cols y) = r.cells := by
          funext y
          rw [adj_total_nil, add_zero]
        rw [hc]
      · rw [if_neg hr]
    rw [List.foldl_nil, h]
    exact (List.map_id' t.rows).symm
  | cons a as ih =>
    rw [List.foldl_cons]
    obtain ⟨ihc, ihr⟩ := ih (apply_adjustment t a)
    refine ⟨by rw [ihc, apply_adjustment_cols], ?_⟩
    rw [ihr, apply_adjustment_cols]
    unfold apply_adjustment
    by_cases hmem : a.1 ∈ t.cols
    · rw [if_pos hmem]
      rw [List.map_map]
      congr 1
      funext r
      simp only [Function.comp]
      by_cases hr : r.varName = "Emissions|CO2"
      · simp only [if_pos hr]
        congr 1
        funext y
        rw [adj_total_cons]
        by_cases hy : y = a.1
        · rw [if_pos hy, if_pos ⟨hy.symm, hmem⟩]
          ring
        · rw [if_neg hy, if_neg (fun hcon => hy hcon.1.symm), zero_add]
      · simp only [if_neg hr]
    · rw [if_neg hmem]
      congr 1
      funext r
      by_cases hr : r.varName = "Emissions|CO2"
      · simp only [if_pos hr]
        congr 1
        funext y
        rw [adj_total_cons, if_neg (fun hcon => hmem hcon.2), zero_add]
      · simp only [if_neg hr]

theorem adjustment_Mt_eq_some (r : RefRow) (a : ℚ) :
    adjustment_Mt r = some a ↔
      ∃ act cf, r.actual = some act ∧ r.counterfactual = some cf ∧
        a = (cf - act) * 1000 := by
  unfold adjustment_Mt
  cases hact : r.actual with
  | none => simp
  | some act =>
    cases hcf : r.counterfactual with
    | none => simp
    | some cf =>
      simp only [Option.some.injEq]
      constructor
      · intro h
        exact ⟨act, cf, rfl, rfl, h.symm⟩
      · rintro ⟨act', cf', hact', hcf', ha⟩
        subst hact'
        subst hcf'
        exact ha.symm

theorem adjustment_data_mem (xs : List RefRow) (y : Int) (a : ℚ) :
    (y, a) ∈ adjustment_data xs ↔
      ∃ rr ∈ xs, ∃ yq act cf,
        rr.year = some yq ∧ rr.actual = some act ∧ rr.counterfactual = some cf ∧
        1976 ≤ yq ∧ yq ≤ 2023 ∧ y = truncQ yq ∧ a = (cf - act) * 1000 := by
  unfold adjustment_data
  rw [List.mem_filterMap]
  constructor
  · rintro ⟨rr, hrr, hg⟩
    refine ⟨rr, hrr, ?_⟩
    cases hy : rr.year with
    | none => rw [hy] at hg; simp at hg
    | some yq =>
      cases hm : adjustment_Mt rr with
      | none => rw [hy, hm] at hg; simp at hg
      | some am =>
        rw [hy, hm] at hg
        simp only at hg
        by_cases hw : 1976 ≤ yq ∧ yq ≤ 2023
        · rw [if_pos hw] at hg
          simp only [Option.some.injEq, Prod.mk.injEq] at hg
          obtain ⟨hgy, hga⟩ := hg
          obtain ⟨act, cf, hact, hcf, ham⟩ := (adjustment_Mt_eq_some rr am).mp hm
          exact ⟨yq, act, cf, rfl, hact, hcf, hw.1, hw.2, hgy.symm, by rw [← hga, ham]⟩
        · rw [if_neg hw] at hg
          simp at hg
  · rintro ⟨rr, hrr, yq, act, cf, hy, hact, hcf, h1, h2, hyq, ha⟩
    refine ⟨rr, hrr, ?_⟩
    have hm : adjustment_Mt rr = some ((cf - act) * 1000) :=
      (adjustment_Mt_eq_some rr _).mpr ⟨act, cf, hact, hcf, rfl⟩
    rw [hy, hm]
    simp only
    rw [if_pos ⟨h1, h2⟩, hyq, ha]

theorem adjustment_data_window (xs : List RefRow) (y : Int) (a : ℚ)
    (h : (y, a) ∈ adjustment_data xs) : 1976 ≤ y ∧ y ≤ 2023 := by
  obtain ⟨rr, _, yq, act, cf, _, _, _, h1, h2, hyq, _⟩ :=
    (adjustment_data_mem xs y a).mp h
  have h0 : (0 : ℚ) ≤ yq := le_trans (by norm_num) h1
  have ht : truncQ yq = ⌊yq⌋ := by
    unfold truncQ
    rw [if_pos h0]
  subst hyq
  rw [ht]
  constructor
  · exact Int.le_floor.mpr (by push_cast; linarith)
  · have h3 : ⌊yq⌋ ≤ ⌊(2023 : ℚ)⌋ := Int.floor_le_floor h2
    have h4 : ⌊(2023 : ℚ)⌋ = 2023 := by norm_num
    omega

theorem adj_total_eq_zero (adjs : List (Int × ℚ)) (cols : List Int) (y : Int)
    (h : y ∉ adjs.map Prod.fst) : adj_total adjs cols y = 0 := by
  unfold adj_total
  have hfil : adjs.filter (fun p => p.1 == y && decide (p.1 ∈ cols)) = [] := by
    rw [List.filter_eq_nil_iff]
    intro p hp
    simp only [Bool.and_eq_true, beq_iff_eq, decide_eq_true_eq, not_and]
    intro hpy _
    exact h (List.mem_map.mpr ⟨p, hp, hpy⟩)
  rw [hfil]
  rfl

theorem adj_total_eq_of_nodup (adjs : List (Int × ℚ)) (cols : List Int)
    (y : Int) (a : ℚ) (hnd : (adjs.map Prod.fst).Nodup)
    (hmem : (y, a) ∈ adjs) (hy : y ∈ cols) :
    adj_total adjs cols y = a := by
  induction adjs with
  | nil => simp at hmem
  | cons b bs ih =>
    rw [adj_total_cons]
    simp only [List.map_cons, List.nodup_cons] at hnd
    obtain ⟨hb, hnd'⟩ := hnd
    rcases List.mem_cons.mp hmem with heq | hmemtl
    · obtain rfl := heq.symm
      rw [if_pos ⟨rfl, hy⟩]
      rw [adj_total_eq_zero bs cols y hb, add_zero]
    · have hbne : ¬(b.1 = y ∧ b.1 ∈ cols) := by
        rintro ⟨hb1, _⟩
        apply hb
        rw [hb1]
        exact List.mem_map.mpr ⟨(y, a), hmemtl, rfl⟩
      rw [if_neg hbne, zero_add]
      exact ih hnd' hmemtl

/-- C4: the counterfactual adjustment leaves every non-target row and
every out-of-window cell unchanged, and adds exactly
`1000 × (counterfactual − actual)` to the target row's cell at each
in-window year carried by the reference data. -/
theorem spec_C4 (xs : List RefRow) (t : EmisTable)
    (hco2 : (t.rows.filter (fun r => r.varName == "Emissions|CO2")).length ≠ 0)
    (hnd : ((adjustment_data xs).map Prod.fst).Nodup)
    (hwin : ∀ y : Int, 1976 ≤ y → y ≤ 2023 → y ∈ t.cols) :
    ∃ t', create_counterfactual_interpolated xs t = .ok t' ∧
      t'.cols = t.cols ∧
      t'.rows.length = t.rows.length ∧
      (∀ (i : Nat) (r : EmisRow), t.rows[i]? = some r → r.varName ≠ "Emissions|CO2" →
        t'.rows[i]? = some r) ∧
      (∀ (i : Nat) (r : EmisRow), t.rows[i]? = some r → r.varName = "Emissions|CO2" →
        ∃ r', t'.rows[i]? = some r' ∧
          r'.scenario = r.scenario ∧ r'.varName = r.varName ∧ r'.unit = r.unit ∧
          (∀ y a, (y, a) ∈ adjustment_data xs → r'.cells y = r.cells y + a) ∧
          (∀ y : Int, y ∉ (adjustment_data xs).map Prod.fst → r'.cells y = r.cells y) ∧
          (∀ y : Int, y < 1976 ∨ 2023 < y → r'.cells y = r.cells y)) ∧
      (∀ y a, (y, a) ∈ adjustment_data xs ↔ ∃ rr ∈ xs, ∃ yq act cf,
        rr.year = some yq ∧ rr.actual = some act ∧ rr.counterfactual = some cf ∧
        1976 ≤ yq ∧ yq ≤ 2023 ∧ y = truncQ yq ∧ a = (cf - act) * 1000) := by
  obtain ⟨hcols, hrows⟩ := foldl_apply_adjustment (adjustment_data xs) t
  refine ⟨(adjustment_data xs).foldl apply_adjustment t, ?_, hcols, ?_, ?_, ?_,
    fun y a => adjustment_data_mem xs y a⟩
  · unfold create_counterfactual_interpolated
    rw [if_neg hco2]
  · rw [hrows, List.length_map]
  · intro i r hir hne
    rw [hrows, List.getElem?_map, hir, Option.map_some', if_neg hne]
  · intro i r hir heq
    refine ⟨{ r with cells := fun y => r.cells y + adj_total (adjustment_data xs) t.cols y },
      ?_, rfl, rfl, rfl, ?_, ?_, ?_⟩
    · rw [hrows, List.getElem?_map, hir, Option.map_some', if_pos heq]
    · intro y a hmem
      have hw := adjustment_data_window xs y a hmem
      have hy : y ∈ t.cols := hwin y hw.1 hw.2
      dsimp only
      rw [adj_total_eq_of_nodup _ _ _ _ hnd hmem hy]
    · intro y hnot
      dsimp only
      rw [adj_total_eq_zero _ _ _ hnot, add_zero]
    · intro y hout
      dsimp only
      have hnot : y ∉ (adjustment_data xs).map Prod.fst := by
        intro hmem'
        obtain ⟨p, hp, hfst⟩ := List.mem_map.mp hmem'
        have hw := adjustment_data_window xs p.1 p.2 (by
          have : p = (p.1, p.2) := rfl
          rw [← this]
          exact hp)
        rcases hout with hlt | hgt
        · omega
        · omega
      rw [adj_total_eq_zero _ _ _ hnot, add_zero]

theorem spec_C4_witness :
    ∃ t', create_counterfactual_interpolated [⟨some 1980, some 20, some 25⟩]
      ⟨(List.range 48).map (fun i : Nat => (1976 : Int) + (i : Int)),
       [⟨"s", "Emissions|CO2", "u", fun _ => 0⟩]⟩ = .ok t' := by
  obtain ⟨t', h, _⟩ := spec_C4 [⟨some 1980, some 20, some 25⟩]
    ⟨(List.range 48).map (fun i : Nat => (1976 : Int) + (i : Int)),
     [⟨"s", "Emissions|CO2", "u", fun _ => 0⟩]⟩
    (by decide) (by decide)
    (by
      intro y h1 h2
      refine List.mem_map.mpr ⟨(y - 1976).toNat, List.mem_range.mpr ?_, ?_⟩ <;> omega)
  exact ⟨t', h⟩

/-! Lemmas for the reconciliation identity. -/

theorem list_sum_map_add {α : Type} (l : List α) (f g : α → ℚ) :
    (l.map (fun x => f x + g x)).sum = (l.map f).sum + (l.map g).sum := by
  induction l with
  | nil => simp
  | cons a t ih =>
    simp only [List.map_cons, List.sum_cons, ih]
    ring

theorem sum_ite_single (cols : List Int) (a : Int) (c : ℚ) (hnd : cols.Nodup) :
    (cols.map (fun y => if a = y then c else 0)).sum
      = if a ∈ cols then c else 0 := by
  induction cols with
  | nil => simp
  | cons d ds ih =>
    simp only [List.nodup_cons] at hnd
    obtain ⟨hd, hnd'⟩ := hnd
    rw [List.map_cons, List.sum_cons, ih hnd']
    by_cases had : a = d
    · subst had
      rw [if_pos rfl, if_pos (List.mem_cons_self a ds), if_neg hd, add_zero]
    · rw [if_neg had]
      by_cases hmem : a ∈ ds
      · rw [if_pos hmem, if_pos (List.mem_cons_of_mem _ hmem), zero_add]
      · rw [if_neg hmem, if_neg (by
          intro h
          rcases List.mem_cons.mp h with h1 | h2
          · exact had h1
          · exact hmem h2), zero_add]

theorem sum_adj_total (adjs : List (Int × ℚ)) (cols : List Int)
    (hnd : cols.Nodup) :
    (cols.map (fun y => adj_total adjs cols y)).sum
      = ((adjs.filter (fun p => decide (p.1 ∈ cols))).map Prod.snd).sum := by
  induction adjs with
  | nil => simp [adj_total_nil]
  | cons b bs ih =>
    have h1 : (fun y => adj_total (b :: bs) cols y)
        = fun y => (if b.1 = y ∧ b.1 ∈ cols then b.2 else 0) + adj_total bs cols y := by
      funext y
      exact adj_total_cons b bs cols y
    rw [h1, list_sum_map_add, ih, List.filter_cons]
    by_cases hb : b.1 ∈ cols
    · have hcond : decide (b.1 ∈ cols) = true := decide_eq_true hb
      rw [hcond, if_pos rfl, List.map_cons, List.sum_cons]
      have h2 : (fun y : Int => if b.1 = y ∧ b.1 ∈ cols then b.2 else 0)
          = fun y : Int => if b.1 = y then b.2 else 0 := by
        funext y
        by_cases hy : b.1 = y
        · rw [if_pos ⟨hy, hb⟩, if_pos hy]
        · rw [if_neg (fun hc => hy hc.1), if_neg hy]
      rw [h2, sum_ite_single cols b.1 b.2 hnd, if_pos hb]
    · have hcond : decide (b.1 ∈ cols) = false := decide_eq_false hb
      rw [hcond, if_neg Bool.false_ne_true]
      have h2 : (fun y : Int => if b.1 = y ∧ b.1 ∈ cols then b.2 else 0)
          = fun _ : Int => (0 : ℚ) := by
        funext y
        rw [if_neg (fun hc => hb hc.2)]
      rw [h2]
      simp

/-- C5: the reconciliation identity — for any target (`Emissions|CO2`)
row, the total adjustment actually applied across the table's year
columns equals the sum of the deltas computed directly from the two
reference series over the years present in both the table and the
window. -/
theorem spec_C5 (xs : List RefRow) (t : EmisTable)
    (hco2 : (t.rows.filter (fun r => r.varName == "Emissions|CO2")).length ≠ 0)
    (hnd : t.cols.Nodup) :
    ∃ t', create_counterfactual_interpolated xs t = .ok t' ∧
      ∀ (i : Nat) (r r' : EmisRow), t.rows[i]? = some r →
        t'.rows[i]? = some r' → r.varName = "Emissions|CO2" →
        (t.cols.map (fun y => r'.cells y - r.cells y)).sum
          = (((adjustment_data xs).filter
              (fun p => decide (p.1 ∈ t.cols))).map Prod.snd).sum := by
  obtain ⟨hcols, hrows⟩ := foldl_apply_adjustment (adjustment_data xs) t
  refine ⟨_, by unfold create_counterfactual_interpolated; rw [if_neg hco2], ?_⟩
  intro i r r' hir hir' heq
  rw [hrows, List.getElem?_map, hir, Option.map_some', if_pos heq] at hir'
  obtain rfl := (Option.some.inj hir')
  have h2 : t.cols.map (fun y =>
      ({ r with cells := fun y => r.cells y + adj_total (adjustment_data xs) t.cols y} :
        EmisRow).cells y - r.cells y)
      = t.cols.map (fun y => adj_total (adjustment_data xs) t.cols y) := by
    congr 1
    funext y
    dsimp only
    ring
  rw [h2, sum_adj_total _ _ hnd]

theorem spec_C5_witness :
    ∃ t', create_counterfactual_interpolated [⟨some 2000, some 3, some 7⟩]
      ⟨[1980], [⟨"s", "Emissions|CO2", "u", fun _ => 0⟩]⟩ = .ok t' := by
  obtain ⟨t', h, _⟩ := spec_C5 [⟨some 2000, some 3, some 7⟩]
    ⟨[1980], [⟨"s", "Emissions|CO2", "u", fun _ => 0⟩]⟩ (by decide) (by decide)
  exact ⟨t', h⟩

/-! C6: missing required variable rows. -/

/-- C6 counterexample: a table whose required `Emissions|CO2` row is
absent; the FAIR-driver species loop neither raises nor stops — it
continues and processes the remaining variable (`Emissions|OC`). -/
theorem spec_C6_counterexample :
    (([⟨"s", "Emissions|OC", "u", [(1750, some 7)]⟩] : List SparseRow).find?
        (fun r => r.varName == "Emissions|CO2") = none) ∧
    fill_species_loop [] [⟨"s", "Emissions|OC", "u", [(1750, some 7)]⟩] [none]
      = ([("OC", ([none], 0))],
         ["Emissions|CO2", "Emissions|CH4", "Emissions|N2O",
          "Emissions|Sulfur", "Emissions|BC"]) := by
  constructor
  · decide
  · decide

/-- C6 amended: a missing `Emissions|CO2` row makes the
counterfactual-creation step abort with an error, while in the FAIR
driver's species loop a missing variable row only records a warning and
the loop continues: the loop's output is exactly the fill results of the
present variables plus one warning per absent variable. -/
theorem spec_C6_amended :
    (∀ (xs : List RefRow) (t : EmisTable),
      (t.rows.filter (fun r => r.varName == "Emissions|CO2")).length = 0 →
      create_counterfactual_interpolated xs t
        = .error "Could not find Emissions|CO2 in the interpolated emissions file") ∧
    (∀ (mapping : List (String × String)) (tps : List ℚ) (rows : List SparseRow)
        (emisInit : List (Option ℚ)),
      fill_species_loop_over mapping tps rows emisInit
        = (mapping.filterMap (fun p => (rows.find? (fun r => r.varName == p.1)).map
            (fun r => (p.2, process_species tps emisInit r.cells))),
           (mapping.filter
              (fun p => (rows.find? (fun r => r.varName == p.1)).isNone)).map
             Prod.fst)) := by
  constructor
  · intro xs t h
    unfold create_counterfactual_interpolated
    rw [if_pos h]
  · intro mapping tps rows emisInit
    have haux : ∀ (m : List (String × String))
        (acc : List (String × (List (Option ℚ) × Nat)) × List String),
        m.foldl (species_step tps rows emisInit) acc
        = (acc.1 ++ m.filterMap (fun p => (rows.find? (fun r => r.varName == p.1)).map
            (fun r => (p.2, process_species tps emisInit r.cells))),
           acc.2 ++ (m.filter
              (fun p => (rows.find? (fun r => r.varName == p.1)).isNone)).map
             Prod.fst) := by
      intro m
      induction m with
      | nil =>
        intro acc
        simp
      | cons p ms ih =>
        intro acc
        rw [List.foldl_cons, ih]
        cases hf : rows.find? (fun r => r.varName == p.1) with
        | none =>
          simp [species_step, hf, List.filterMap_cons, List.filter_cons]
        | some r =>
          simp [species_step, hf, List.filterMap_cons, List.filter_cons]
    unfold fill_species_loop_over
    rw [haux mapping ([], [])]
    simp

theorem spec_C6_amended_witness :
    ((([] : List EmisRow).filter (fun r => r.varName == "Emissions|CO2")).length = 0) ∧
    create_counterfactual_interpolated [] ⟨[], []⟩
      = .error "Could not find Emissions|CO2 in the interpolated emissions file" :=
  ⟨by decide, spec_C6_amended.1 [] ⟨[], []⟩ (by decide)⟩

/-! Lemmas about the timepoint search and the per-species fill loop. -/

theorem findEq_some (tps : List ℚ) (t : ℚ) :
    ∀ i : Nat, findEq tps t = some i →
      ∃ hi : i < tps.length, tps.get ⟨i, hi⟩ = t := by
  induction tps with
  | nil => intro i h; simp [findEq] at h
  | cons x xs ih =>
    intro i h
    unfold findEq at h
    by_cases hx : x = t
    · rw [if_pos hx] at h
      obtain rfl := Option.some.inj h
      exact ⟨by simp, hx⟩
    · rw [if_neg hx] at h
      obtain ⟨j, hj, rfl⟩ := Option.map_eq_some'.mp h
      obtain ⟨hjlt, hget⟩ := ih j hj
      exact ⟨by simpa using Nat.succ_lt_succ hjlt, by simpa using hget⟩

theorem findEq_inj (tps : List ℚ) (t1 t2 : ℚ) (i : Nat)
    (h1 : findEq tps t1 = some i) (h2 : findEq tps t2 = some i) : t1 = t2 := by
  obtain ⟨hi1, hg1⟩ := findEq_some tps t1 i h1
  obtain ⟨hi2, hg2⟩ := findEq_some tps t2 i h2
  rw [← hg1, ← hg2]

theorem fill_step_eq_some (tps : List ℚ) (st : List (Option ℚ) × Nat)
    (p : Int × ℚ) (i : Nat) (hf : findEq tps ((p.1 : ℚ) + 1/2) = some i) :
    fill_step tps st p = (st.1.set i (some p.2), st.2 + 1) := by
  unfold fill_step
  rw [hf]

theorem fill_step_eq_none (tps : List ℚ) (st : List (Option ℚ) × Nat)
    (p : Int × ℚ) (hf : findEq tps ((p.1 : ℚ) + 1/2) = none) :
    fill_step tps st p = st := by
  unfold fill_step
  rw [hf]

theorem fill_foldl_length (tps : List ℚ) (yvs : List (Int × ℚ)) :
    ∀ (arr : List (Option ℚ)) (c : Nat),
      ((yvs.foldl (fill_step tps) (arr, c)).1).length = arr.length := by
  induction yvs with
  | nil => intro arr c; rfl
  | cons p ps ih =>
    intro arr c
    rw [List.foldl_cons]
    cases hf : findEq tps ((p.1 : ℚ) + 1/2) with
    | some i =>
      rw [fill_step_eq_some tps (arr, c) p i hf]
      dsimp only
      rw [ih]
      exact List.length_set arr i (some p.2)
    | none =>
      rw [fill_step_eq_none tps (arr, c) p hf]
      exact ih arr c

theorem fill_foldl_untouched (tps : List ℚ) (yvs : List (Int × ℚ)) (j : Nat) :
    ∀ (arr : List (Option ℚ)) (c : Nat),
      (∀ p ∈ yvs, findEq tps ((p.1 : ℚ) + 1/2) ≠ some j) →
      ((yvs.foldl (fill_step tps) (arr, c)).1)[j]? = arr[j]? := by
  induction yvs with
  | nil => intro arr c _; rfl
  | cons p ps ih =>
    intro arr c hall
    rw [List.foldl_cons]
    cases hf : findEq tps ((p.1 : ℚ) + 1/2) with
    | some i =>
      rw [fill_step_eq_some tps (arr, c) p i hf]
      dsimp only
      have hij : i ≠ j := fun hcon => hall p (List.mem_cons_self p ps) (hcon ▸ hf)
      rw [ih _ _ (fun q hq => hall q (List.mem_cons_of_mem p hq))]
      exact List.getElem?_set_ne hij
    | none =>
      rw [fill_step_eq_none tps (arr, c) p hf]
      exact ih _ _ (fun q hq => hall q (List.mem_cons_of_mem p hq))

theorem fill_foldl_written (tps : List ℚ) (yvs : List (Int × ℚ)) :
    ∀ (arr : List (Option ℚ)) (c : Nat) (y : Int) (v : ℚ) (i : Nat),
      ((yvs.map Prod.fst).Nodup) → (y, v) ∈ yvs →
      findEq tps ((y : ℚ) + 1/2) = some i → i < arr.length →
      ((yvs.foldl (fill_step tps) (arr, c)).1)[i]? = some (some v) := by
  induction yvs with
  | nil =>
    intro arr c y v i _ hmem
    simp at hmem
  | cons p ps ih =>
    intro arr c y v i hnd hmem hfind hlen
    simp only [List.map_cons, List.nodup_cons] at hnd
    obtain ⟨hnotin, hnd'⟩ := hnd
    rw [List.foldl_cons]
    rcases List.mem_cons.mp hmem with heq | hmemtl
    · obtain rfl := heq.symm
      dsimp only at hnotin ⊢
      rw [fill_step_eq_some tps (arr, c) (y, v) i hfind]
      dsimp only
      have hall : ∀ q ∈ ps, findEq tps ((q.1 : ℚ) + 1/2) ≠ some i := by
        intro q hq hcontra
        apply hnotin
        have hqy : (q.1 : ℚ) + 1/2 = (y : ℚ) + 1/2 :=
          findEq_inj tps _ _ i hcontra hfind
        have hq1 : (q.1 : ℚ) = (y : ℚ) := by linarith
        have hq2 : q.1 = y := by exact_mod_cast hq1
        rw [← hq2]
        exact List.mem_map.mpr ⟨q, hq, rfl⟩
      rw [fill_foldl_untouched tps ps i _ _ hall]
      simp [List.getElem?_set_self, hlen]
    · cases hf : findEq tps ((p.1 : ℚ) + 1/2) with
      | some i0 =>
        rw [fill_step_eq_some tps (arr, c) p i0 hf]
        dsimp only
        exact ih _ _ y v i hnd' hmemtl hfind
          (by rw [List.length_set]; exact hlen)
      | none =>
        rw [fill_step_eq_none tps (arr, c) p hf]
        exact ih _ _ y v i hnd' hmemtl hfind hlen

theorem fill_foldl_count (tps : List ℚ) (yvs : List (Int × ℚ)) :
    ∀ (arr : List (Option ℚ)) (c : Nat),
      (yvs.foldl (fill_step tps) (arr, c)).2
        = c + yvs.countP (fun p => (findEq tps ((p.1 : ℚ) + 1/2)).isSome) := by
  induction yvs with
  | nil => intro arr c; simp
  | cons p ps ih =>
    intro arr c
    rw [List.foldl_cons, List.countP_cons]
    cases hf : findEq tps ((p.1 : ℚ) + 1/2) with
    | some i =>
      rw [fill_step_eq_some tps (arr, c) p i hf]
      dsimp only
      rw [ih]
      simp [hf]
      omega
    | none =>
      rw [fill_step_eq_none tps (arr, c) p hf]
      rw [ih]
      simp [hf]

theorem fill_foldl_filter (tps : List ℚ) (yvs : List (Int × ℚ)) :
    ∀ (arr : List (Option ℚ)) (c : Nat),
      yvs.foldl (fill_step tps) (arr, c)
        = (yvs.filter (fun p => (findEq tps ((p.1 : ℚ) + 1/2)).isSome)).foldl
            (fill_step tps) (arr, c) := by
  induction yvs with
  | nil => intro arr c; rfl
  | cons p ps ih =>
    intro arr c
    rw [List.foldl_cons, List.filter_cons]
    cases hf : findEq tps ((p.1 : ℚ) + 1/2) with
    | some i =>
      simp only [Option.isSome_some]
      rw [if_pos trivial, List.foldl_cons]
      have h := ih (fill_step tps (arr, c) p).1 (fill_step tps (arr, c) p).2
      simpa using h
    | none =>
      simp only [Option.isSome_none]
      rw [if_neg Bool.false_ne_true]
      rw [fill_step_eq_none tps (arr, c) p hf]
      exact ih arr c

/-- C2: the timegrid fill writes each year's value exactly at the index
of the matching timepoint (reading it back returns the value), touches
no other index, drops years without an exact match entirely, and counts
exactly the matched years. -/
theorem spec_C2 (tps : List ℚ) (emis : List (Option ℚ)) (yvs : List (Int × ℚ))
    (hlen : emis.length = tps.length)
    (hnd : (yvs.map Prod.fst).Nodup) :
    (∀ (y : Int) (v : ℚ), (y, v) ∈ yvs →
      ∀ i : Nat, findEq tps ((y : ℚ) + 1/2) = some i →
        ((fill_emissions tps emis yvs).1)[i]? = some (some v)) ∧
    (∀ j : Nat, (∀ p ∈ yvs, findEq tps ((p.1 : ℚ) + 1/2) ≠ some j) →
      ((fill_emissions tps emis yvs).1)[j]? = emis[j]?) ∧
    ((fill_emissions tps emis yvs).1).length = emis.length ∧
    fill_emissions tps emis yvs
      = fill_emissions tps emis
          (yvs.filter (fun p => (findEq tps ((p.1 : ℚ) + 1/2)).isSome)) ∧
    (fill_emissions tps emis yvs).2
      = yvs.countP (fun p => (findEq tps ((p.1 : ℚ) + 1/2)).isSome) := by
  refine ⟨?_, ?_, ?_, ?_, ?_⟩
  · intro y v hmem i hfind
    have hi : i < emis.length := by
      obtain ⟨hlt, _⟩ := findEq_some tps _ i hfind
      omega
    exact fill_foldl_written tps yvs emis 0 y v i hnd hmem hfind hi
  · intro j hall
    exact fill_foldl_untouched tps yvs j emis 0 hall
  · exact fill_foldl_length tps yvs emis 0
  · exact fill_foldl_filter tps yvs emis 0
  · have h := fill_foldl_count tps yvs emis 0
    simpa using h

theorem spec_C2_witness :
    (([none] : List (Option ℚ)).length = [(0 : ℚ)].length ∧
      (([((0 : Int), (5 : ℚ))].map Prod.fst).Nodup)) ∧
    (fill_emissions [(0 : ℚ)] [none] [((0 : Int), (5 : ℚ))]).2
      = [((0 : Int), (5 : ℚ))].countP
          (fun p => (findEq [(0 : ℚ)] ((p.1 : ℚ) + 1/2)).isSome) :=
  ⟨⟨rfl, by decide⟩,
    (spec_C2 [(0 : ℚ)] [none] [((0 : Int), (5 : ℚ))] rfl (by decide)).2.2.2.2⟩

/-- C10: a species' annual values pass through `np.nan_to_num` before
the timegrid fill, so the value written into the engine array at the
matched index is never NaN; a missing (NaN) year is written as exactly
0.0. -/
theorem spec_C10 (tps : List ℚ) (emis : List (Option ℚ))
    (cells : List (Int × Option ℚ)) (hlen : emis.length = tps.length)
    (hnd : (cells.map Prod.fst).Nodup) :
    ∀ (y : Int) (c : Option ℚ), (y, c) ∈ cells →
      ∀ i : Nat, findEq tps ((y : ℚ) + 1/2) = some i →
        ((process_species tps emis cells).1)[i]? = some (some (c.getD 0)) ∧
        (c = none → ((process_species tps emis cells).1)[i]? = some (some 0)) := by
  intro y c hmem i hfind
  have hmem' : (y, c.getD 0) ∈ nan_to_num_series cells :=
    List.mem_map.mpr ⟨(y, c), hmem, rfl⟩
  have hnd' : ((nan_to_num_series cells).map Prod.fst).Nodup := by
    unfold nan_to_num_series
    rw [List.map_map]
    exact hnd
  have hi : i < emis.length := by
    obtain ⟨hlt, _⟩ := findEq_some tps _ i hfind
    omega
  have hwrite := fill_foldl_written tps (nan_to_num_series cells) emis 0
    y (c.getD 0) i hnd' hmem' hfind hi
  constructor
  · exact hwrite
  · intro hc
    subst hc
    exact hwrite

theorem spec_C10_witness :
    (([none] : List (Option ℚ)).length = [((0 : Int) : ℚ) + 1/2].length ∧
      (([((0 : Int), (some 5 : Option ℚ))].map Prod.fst).Nodup)) ∧
    ((process_species [((0 : Int) : ℚ) + 1/2] [none]
        [((0 : Int), some 5)]).1)[0]? = some (some ((some (5 : ℚ)).getD 0)) := by
  have hfind : findEq [((0 : Int) : ℚ) + 1/2] (((0 : Int) : ℚ) + 1/2) = some 0 := by
    simp [findEq]
  exact ⟨⟨rfl, by decide⟩,
    (spec_C10 [((0 : Int) : ℚ) + 1/2] [none] [((0 : Int), some 5)] rfl (by decide)
      0 (some 5) (by simp) 0 hfind).1⟩

/-! Lemmas for the scenario comparison. -/

theorem zipWith_sub_getLastD_aux (a : List ℚ) :
    ∀ (b : List ℚ), a.length = b.length → ∀ d1 d2 : ℚ,
      (List.zipWith (· - ·) a b).getLastD (d1 - d2)
        = a.getLastD d1 - b.getLastD d2 := by
  induction a with
  | nil =>
    intro b hlen d1 d2
    cases b with
    | nil => rfl
    | cons y ys => simp at hlen
  | cons x xs ih =>
    intro b hlen d1 d2
    cases b with
    | nil => simp at hlen
    | cons y ys =>
      rw [List.zipWith_cons_cons, List.getLastD_cons, List.getLastD_cons,
        List.getLastD_cons]
      exact ih ys (by simpa using hlen) x y

theorem lastD_zipWith_sub (a b : List ℚ) (hlen : a.length = b.length) :
    (List.zipWith (· - ·) a b).getLastD 0 = a.getLastD 0 - b.getLastD 0 := by
  have h := zipWith_sub_getLastD_aux a b hlen 0 0
  simpa using h

theorem foldl_max_le_init (as : List ℚ) : ∀ a : ℚ, a ≤ as.foldl max a := by
  induction as with
  | nil => intro a; exact le_refl a
  | cons b bs ih =>
    intro a
    exact le_trans (le_max_left a b) (ih (max a b))

theorem foldl_max_mem (as : List ℚ) :
    ∀ a : ℚ, as.foldl max a = a ∨ as.foldl max a ∈ as := by
  induction as with
  | nil => intro a; exact Or.inl rfl
  | cons b bs ih =>
    intro a
    rw [List.foldl_cons]
    rcases ih (max a b) with h | h
    · rcases max_choice a b with hm | hm
      · exact Or.inl (h.trans hm)
      · exact Or.inr (by rw [h, hm]; exact List.mem_cons_self b bs)
    · exact Or.inr (List.mem_cons_of_mem b h)

theorem le_foldl_max (as : List ℚ) : ∀ (a x : ℚ), x ∈ as → x ≤ as.foldl max a := by
  induction as with
  | nil => intro a x hx; simp at hx
  | cons b bs ih =>
    intro a x hx
    rw [List.foldl_cons]
    rcases List.mem_cons.mp hx with rfl | hx2
    · exact le_trans (le_max_right a x) (foldl_max_le_init bs (max a x))
    · exact ih (max a b) x hx2

theorem npMax_spec (l : List ℚ) (hne : l ≠ []) :
    npMax l ∈ l ∧ ∀ x ∈ l, x ≤ npMax l := by
  cases l with
  | nil => exact absurd rfl hne
  | cons a as =>
    constructor
    · show as.foldl max a ∈ a :: as
      rcases foldl_max_mem as a with h | h
      · rw [h]
        exact List.mem_cons_self a as
      · exact List.mem_cons_of_mem a h
    · intro x hx
      show x ≤ as.foldl max a
      rcases List.mem_cons.mp hx with rfl | hx2
      · exact foldl_max_le_init as x
      · exact le_foldl_max as a x hx2

theorem sum_zipWith_sub (a : List ℚ) :
    ∀ b : List ℚ, a.length = b.length →
      (List.zipWith (· - ·) a b).sum = a.sum - b.sum := by
  induction a with
  | nil =>
    intro b hlen
    cases b with
    | nil => simp
    | cons y ys => simp at hlen
  | cons x xs ih =>
    intro b hlen
    cases b with
    | nil => simp at hlen
    | cons y ys =>
      rw [List.zipWith_cons_cons, List.sum_cons, List.sum_cons, List.sum_cons,
        ih ys (by simpa using hlen)]
      ring

theorem zipWith_sub_self (l : List ℚ) :
    ∀ x ∈ List.zipWith (· - ·) l l, x = 0 := by
  induction l with
  | nil => intro x hx; simp at hx
  | cons a as ih =>
    intro x hx
    rw [List.zipWith_cons_cons] at hx
    rcases List.mem_cons.mp hx with rfl | hx2
    · exact sub_self a
    · exact ih x hx2

theorem zipWith_sub_get (a b : List ℚ) (i : Nat)
    (hi : i < (List.zipWith (· - ·) a b).length) :
    ∃ (h1 : i < a.length) (h2 : i < b.length),
      (List.zipWith (· - ·) a b).get ⟨i, hi⟩
        = a.get ⟨i, h1⟩ - b.get ⟨i, h2⟩ := by
  rw [List.length_zipWith] at hi
  have h1 : i < a.length := by omega
  have h2 : i < b.length := by omega
  refine ⟨h1, h2, ?_⟩
  simp [List.get_eq_getElem, List.getElem_zipWith]

/-- C7: compare_scenarios computes elementwise differences
counterfactual − baseline for each quantity; its scalars are exactly the
final-year difference, the running maximum of the difference series, and
(for emissions) the cumulative sum; two identical runs give all-zero
difference series. -/
theorem spec_C7 (baseline counterfactual : RunResult)
    (hT : counterfactual.temperature.length = baseline.temperature.length)
    (hC : counterfactual.co2_concentration.length = baseline.co2_concentration.length)
    (hE : counterfactual.emissions.length = baseline.emissions.length)
    (hTne : baseline.temperature ≠ [])
    (hCne : baseline.co2_concentration ≠ []) :
    (∀ (i : Nat) (hi : i < (compare_scenarios baseline counterfactual).temp_diff_series.length),
      ∃ (h1 : i < counterfactual.temperature.length) (h2 : i < baseline.temperature.length),
        (compare_scenarios baseline counterfactual).temp_diff_series.get ⟨i, hi⟩
          = counterfactual.temperature.get ⟨i, h1⟩ - baseline.temperature.get ⟨i, h2⟩) ∧
    (∀ (i : Nat) (hi : i < (compare_scenarios baseline counterfactual).co2_diff_series.length),
      ∃ (h1 : i < counterfactual.co2_concentration.length)
        (h2 : i < baseline.co2_concentration.length),
        (compare_scenarios baseline counterfactual).co2_diff_series.get ⟨i, hi⟩
          = counterfactual.co2_concentration.get ⟨i, h1⟩
            - baseline.co2_concentration.get ⟨i, h2⟩) ∧
    (∀ (i : Nat) (hi : i < (compare_scenarios baseline counterfactual).emissions_diff_series.length),
      ∃ (h1 : i < counterfactual.emissions.length) (h2 : i < baseline.emissions.length),
        (compare_scenarios baseline counterfactual).emissions_diff_series.get ⟨i, hi⟩
          = counterfactual.emissions.get ⟨i, h1⟩ - baseline.emissions.get ⟨i, h2⟩) ∧
    (compare_scenarios baseline counterfactual).temp_diff_2023
      = counterfactual.temperature.getLastD 0 - baseline.temperature.getLastD 0 ∧
    (compare_scenarios baseline counterfactual).co2_diff_2023
      = counterfactual.co2_concentration.getLastD 0
        - baseline.co2_concentration.getLastD 0 ∧
    ((compare_scenarios baseline counterfactual).max_temp_diff
        ∈ (compare_scenarios baseline counterfactual).temp_diff_series ∧
      ∀ x ∈ (compare_scenarios baseline counterfactual).temp_diff_series,
        x ≤ (compare_scenarios baseline counterfactual).max_temp_diff) ∧
    ((compare_scenarios baseline counterfactual).max_co2_diff
        ∈ (compare_scenarios baseline counterfactual).co2_diff_series ∧
      ∀ x ∈ (compare_scenarios baseline counterfactual).co2_diff_series,
        x ≤ (compare_scenarios baseline counterfactual).max_co2_diff) ∧
    (compare_scenarios baseline counterfactual).cumulative_emissions_diff
      = counterfactual.emissions.sum - baseline.emissions.sum ∧
    (baseline = counterfactual →
      (∀ x ∈ (compare_scenarios baseline counterfactual).temp_diff_series, x = 0) ∧
      (∀ x ∈ (compare_scenarios baseline counterfactual).co2_diff_series, x = 0) ∧
      (∀ x ∈ (compare_scenarios baseline counterfactual).emissions_diff_series, x = 0)) := by
  have hts : (compare_scenarios baseline counterfactual).temp_diff_series
      = List.zipWith (· - ·) counterfactual.temperature baseline.temperature := rfl
  have hcs : (compare_scenarios baseline counterfactual).co2_diff_series
      = List.zipWith (· - ·) counterfactual.co2_concentration
          baseline.co2_concentration := rfl
  have hes : (compare_scenarios baseline counterfactual).emissions_diff_series
      = List.zipWith (· - ·) counterfactual.emissions baseline.emissions := rfl
  have htne : (compare_scenarios baseline counterfactual).temp_diff_series ≠ [] := by
    rw [hts]
    have hpos : 0 < baseline.temperature.length := List.length_pos.mpr hTne
    intro hcon
    have hlen2 := congrArg List.length hcon
    rw [List.length_zipWith] at hlen2
    simp only [List.length_nil] at hlen2
    omega
  have hcne : (compare_scenarios baseline counterfactual).co2_diff_series ≠ [] := by
    rw [hcs]
    have hpos : 0 < baseline.co2_concentration.length := List.length_pos.mpr hCne
    intro hcon
    have hlen2 := congrArg List.length hcon
    rw [List.length_zipWith] at hlen2
    simp only [List.length_nil] at hlen2
    omega
  refine ⟨?_, ?_, ?_, ?_, ?_, ?_, ?_, ?_, ?_⟩
  · intro i hi
    exact zipWith_sub_get _ _ i hi
  · intro i hi
    exact zipWith_sub_get _ _ i hi
  · intro i hi
    exact zipWith_sub_get _ _ i hi
  · exact lastD_zipWith_sub _ _ hT
  · exact lastD_zipWith_sub _ _ hC
  · exact npMax_spec _ htne
  · exact npMax_spec _ hcne
  · exact sum_zipWith_sub _ _ hE
  · intro heq
    subst heq
    exact ⟨zipWith_sub_self _, zipWith_sub_self _, zipWith_sub_self _⟩

theorem spec_C7_witness :
    ((([(2 : ℚ)] : List ℚ).length = ([(1 : ℚ)] : List ℚ).length) ∧
      (([(1 : ℚ)] : List ℚ) ≠ [])) ∧
    (compare_scenarios ⟨[1], [2], [3]⟩ ⟨[2], [2], [4]⟩).cumulative_emissions_diff
      = ([(4 : ℚ)] : List ℚ).sum - ([(3 : ℚ)] : List ℚ).sum :=
  ⟨⟨rfl, by decide⟩,
    (spec_C7 ⟨[1], [2], [3]⟩ ⟨[2], [2], [4]⟩ rfl rfl rfl (by decide)
      (by decide)).2.2.2.2.2.2.2.1⟩

/-! C1: the pre-run NaN policy. -/

/-- C1 counterexample: a state whose temperature array still contains a
NaN before the run; the pipeline does not abort — the pre-run step
returns normally (repairing the state to zeros) and hands it to the
engine's run. -/
theorem spec_C1_counterexample :
    hasNaN (ModelState.mk [none] [some 0] [some 0] [some 0]).temperature = true ∧
    pre_run_check ⟨[none], [some 0], [some 0], [some 0]⟩
      = .ok ⟨[some 0], [some 0], [some 0], [some 0]⟩ := by
  constructor
  · rfl
  · rfl

/-- C1 amended: when NaN remains in the temperature state array pre-run,
the pipeline does not raise: it overwrites temperature, forcing,
cumulative emissions and airborne emissions with exact zeros (leaving no
NaN in them) and proceeds to run the engine. -/
theorem spec_C1_amended (s : ModelState) (h : hasNaN s.temperature = true) :
    pre_run_check s = .ok
      { temperature := s.temperature.map (fun _ => some 0),
        forcing := s.forcing.map (fun _ => some 0),
        cumulative_emissions := s.cumulative_emissions.map (fun _ => some 0),
        airborne_emissions := s.airborne_emissions.map (fun _ => some 0) } ∧
    hasNaN (fix_nan_state s).temperature = false ∧
    hasNaN (fix_nan_state s).forcing = false ∧
    hasNaN (fix_nan_state s).cumulative_emissions = false ∧
    hasNaN (fix_nan_state s).airborne_emissions = false := by
  have hfix : fix_nan_state s =
      { temperature := s.temperature.map (fun _ => some 0),
        forcing := s.forcing.map (fun _ => some 0),
        cumulative_emissions := s.cumulative_emissions.map (fun _ => some 0),
        airborne_emissions := s.airborne_emissions.map (fun _ => some 0) } := by
    unfold fix_nan_state
    rw [if_pos h]
  refine ⟨?_, ?_, ?_, ?_, ?_⟩
  · unfold pre_run_check
    rw [hfix]
  · rw [hfix]
    simp [hasNaN]
  · rw [hfix]
    simp [hasNaN]
  · rw [hfix]
    simp [hasNaN]
  · rw [hfix]
    simp [hasNaN]

theorem spec_C1_witness :
    hasNaN (ModelState.mk [none, some 1] [some 2] [] [none]).temperature = true ∧
    pre_run_check ⟨[none, some 1], [some 2], [], [none]⟩
      = .ok ⟨[some 0, some 0], [some 0], [], [some 0]⟩ := by
  have h : hasNaN (ModelState.mk [none, some 1] [some 2] [] [none]).temperature
      = true := rfl
  exact ⟨h, (spec_C1_amended ⟨[none, some 1], [some 2], [], [none]⟩ h).1⟩

end Fair
